import Mathlib

/-!
# A verification development for the fake file system shell (`main.cpp`)

The program keeps a tree of `File` and `Directory` objects that mirrors part of
the real disk, and a session object (`FakeFileSystem`) holding the current
`Directory`.  The embedding below follows `main.cpp` function by function.

* The disk is an input of every operation.  It is a finite tree of entries
  (`FsEntry`), observed through `Disk.lookup`, which stands for what the
  operating system resolves a path text to.  The calls of `std::filesystem`
  made by the program (`exists`, `is_directory`, `is_regular_file`,
  `file_size`, `directory_iterator`) are read off that observation.
* `std::sort` is a library routine.  What holds for every conforming routine is
  stated over a parameter (`StdSort`) constrained by what the C++ standard promises;
  what depends on the routine itself is stated over `libstdcxxSort`, the `std::sort`
  of libstdc++ (GCC), embedded from its headers.
* A call that does not hand back a value (an exception leaving the function,
  or control running off the end of a value-returning function) is `none`.
-/

namespace FakeFS

/-! ## Paths -/

/-- The text after the last `/` of a character sequence. -/
def lastSegment : List Char → List Char → List Char
  | acc, [] => acc
  | acc, c :: cs => if c = '/' then lastSegment [] cs else lastSegment (acc ++ [c]) cs

/-- `fs::path::filename()` on a POSIX path text: the text after the last separator. -/
def filename (p : String) : String :=
  String.mk (lastSegment [] p.data)

/-- `fs::path::is_absolute()` on a POSIX path text. -/
def is_absolute (p : String) : Bool :=
  match p.data with
  | c :: _ => c == '/'
  | [] => false

/-- `fs::path::has_filename()`: the text is not empty and does not end in a separator. -/
def has_filename (p : String) : Bool :=
  !(lastSegment [] p.data).isEmpty

/-- `operator/` of `fs::path`: an absolute right operand replaces the left one;
otherwise a separator is inserted when the left operand has a filename. -/
def joinPath (p s : String) : String :=
  if is_absolute s then s
  else if has_filename p then p ++ "/" ++ s
  else p ++ s

/-! ## The disk -/

/-- One entry of the disk: a regular file with its size in bytes, something that is
neither a regular file nor a directory, or a directory with its entries in the
order the operating system enumerates them. -/
inductive FsEntry where
  | regular (name : String) (size : Nat)
  | other (name : String)
  | dir (name : String) (entries : List FsEntry)

/-- The name of a disk entry. -/
def FsEntry.name : FsEntry → String
  | .regular n _ => n
  | .other n => n
  | .dir n _ => n

/-- The disk as the program observes it: `lookup p` is what exists at the path text
`p` (relative texts are resolved against the working directory of the process),
`current_path` is `fs::current_path()`. -/
structure Disk where
  lookup : String → Option FsEntry
  current_path : String

/-- `fs::exists(p)`. -/
def Disk.fs_exists (disk : Disk) (p : String) : Bool :=
  (disk.lookup p).isSome

/-- `fs::is_directory(p)`. -/
def Disk.is_directory (disk : Disk) (p : String) : Bool :=
  match disk.lookup p with
  | some (.dir _ _) => true
  | _ => false

/-- `fs::is_regular_file(p)`. -/
def Disk.is_regular_file (disk : Disk) (p : String) : Bool :=
  match disk.lookup p with
  | some (.regular _ _) => true
  | _ => false

/-- `fs::file_size(p)` for a regular file. -/
def Disk.file_size (disk : Disk) (p : String) : Nat :=
  match disk.lookup p with
  | some (.regular _ sz) => sz
  | _ => 0

/-- `fs::directory_iterator(p)`: the entries of the directory at `p`, in enumeration
order; `none` when `p` is not a directory (the iterator throws). -/
def Disk.directory_iterator (disk : Disk) (p : String) : Option (List FsEntry) :=
  match disk.lookup p with
  | some (.dir _ es) => some es
  | _ => none

/-! ### A concrete disk: a tree rooted at `/` with a working directory -/

/-- The segments of a path text between separators (empty segments included). -/
def splitPath : List Char → List String
  | [] => [""]
  | c :: cs =>
    if c = '/' then "" :: splitPath cs
    else
      match splitPath cs with
      | seg :: rest => String.mk (c :: seg.data) :: rest
      | [] => [String.mk [c]]

/-- The entry of a list of entries that carries the given name. -/
def findEntry (n : String) : List FsEntry → Option FsEntry
  | [] => none
  | e :: es => if e.name = n then some e else findEntry n es

/-- Path resolution, one segment at a time.  `cur` is the entry reached so far and
`up` the directories above it, nearest first.  An empty segment or `.` stays in
place, `..` moves to the parent (the root is its own parent), any other segment
descends into the entry of that name; every step requires `cur` to be a directory. -/
def walk : FsEntry → List FsEntry → List String → Option (FsEntry × List FsEntry)
  | cur, up, [] => some (cur, up)
  | cur, up, seg :: segs =>
    match cur with
    | .dir _ es =>
      if seg = "" ∨ seg = "." then walk cur up segs
      else if seg = ".." then
        match up with
        | parent :: above => walk parent above segs
        | [] => walk cur [] segs
      else
        match findEntry seg es with
        | some e => walk e (cur :: up) segs
        | none => none
    | _ => none

/-- The disk whose root directory holds `root` and whose working directory is reached
from the root by the segments `cwd`.  The empty path text resolves to nothing; a
text starting with `/` is resolved from the root, any other from the working
directory. -/
def Disk.ofTree (root : List FsEntry) (cwd : List String) : Disk where
  lookup := fun p =>
    if p = "" then none
    else
      let start :=
        if is_absolute p then some (FsEntry.dir "" root, [])
        else walk (.dir "" root) [] cwd
      match start with
      | some (cur, up) => (walk cur up (splitPath p.data)).map Prod.fst
      | none => none
  current_path := if cwd = [] then "/" else String.join (cwd.map (fun seg => "/" ++ seg))

/-! ## The objects of the program -/

/-- A `File` object: its `filePath` and its `size` member.  The one-argument
constructor leaves `size` unset (`none`); the two-argument one stores the given size. -/
structure File where
  filePath : String
  size : Option Int

/-- A `FileSystemComponent`: a `File`, or a `Directory` with its `currentDirectory`
path and its `contents`. -/
inductive FileSystemComponent where
  | file (f : File)
  | directory (currentDirectory : String) (contents : List FileSystemComponent)

/-- A `Directory` object: the path it stands for and the children it holds. -/
structure Directory where
  currentDirectory : String
  contents : List FileSystemComponent

/-- A `Directory` seen as a `FileSystemComponent`. -/
def Directory.toComponent (d : Directory) : FileSystemComponent :=
  .directory d.currentDirectory d.contents

mutual
/-- The object built for one enumerated entry of the directory at `path`: a
`Directory` built recursively when the entry is a directory, a `File` otherwise. -/
def scanEntry (path : String) : FsEntry → FileSystemComponent
  | .dir n es => .directory (joinPath path n) (scanEntries (joinPath path n) es)
  | .regular n _ => .file ⟨joinPath path n, none⟩
  | .other n => .file ⟨joinPath path n, none⟩
/-- The loop of the `Directory` constructor over the enumerated entries. -/
def scanEntries (path : String) : List FsEntry → List FileSystemComponent
  | [] => []
  | e :: es => scanEntry path e :: scanEntries path es
end

/-- The constructor `Directory::Directory(path)`: enumerates `path` once and builds
one child per entry, in enumeration order; `none` when the enumeration throws.  The
disk does not change during the scan, so the entries of a sub-directory are the ones
the enumeration of its parent reported. -/
def Directory.new (disk : Disk) (path : String) : Option Directory :=
  match disk.directory_iterator path with
  | some es => some ⟨path, scanEntries path es⟩
  | none => none

/-- `getName()` of either class: the filename of the stored path. -/
def getName : FileSystemComponent → String
  | .file f => filename f.filePath
  | .directory p _ => filename p

/-- `isDirectory()`. -/
def isDirectory : FileSystemComponent → Bool
  | .file _ => false
  | .directory _ _ => true

/-- The conversion `static_cast<int>` of a byte count: reduction to a 32-bit
two's complement value. -/
def toInt32 (n : Int) : Int :=
  (n + 2147483648) % 4294967296 - 2147483648

/-- `File::getSize()`: the size on disk when `filePath` is a regular file; no
`return` is reached otherwise (the `size` member is never read). -/
def File.getSize (disk : Disk) (f : File) : Option Int :=
  if disk.is_regular_file f.filePath then some (toInt32 (disk.file_size f.filePath))
  else none

/-- The accumulation loop of `Directory::getSize()` over freshly enumerated
entries: regular files add their size, everything else is skipped.  The `int`
accumulator is kept in 32-bit two's complement. -/
def sumRegular : Int → List FsEntry → Int
  | total, [] => total
  | total, .regular _ sz :: es => sumRegular (toInt32 (total + toInt32 sz)) es
  | total, _ :: es => sumRegular total es

/-- `Directory::getSize()`: a fresh enumeration of `currentDirectory`, summing the
sizes of its regular files; the cached `contents` are not consulted. -/
def Directory.getSize (disk : Disk) (currentDirectory : String) : Option Int :=
  match disk.directory_iterator currentDirectory with
  | some es => some (sumRegular 0 es)
  | none => none

/-- The virtual call `getSize()`. -/
def getSize (disk : Disk) : FileSystemComponent → Option Int
  | .file f => f.getSize disk
  | .directory p _ => Directory.getSize disk p

/-! ## Listing and navigation -/

/-- One line of `Directory::listContents()`: the tag, the name and the size of a
child; `none` when the child's `getSize()` hands back no value. -/
def listLine (disk : Disk) (entry : FileSystemComponent) : Option String :=
  match getSize disk entry with
  | some sz =>
    some ((if isDirectory entry then "Directory: " else "File: ") ++ getName entry ++ " "
      ++ toString sz)
  | none => none

/-- The loop of `Directory::listContents()` over the cached children. -/
def listLines (disk : Disk) : List FileSystemComponent → Option (List String)
  | [] => some []
  | entry :: rest =>
    match listLine disk entry, listLines disk rest with
    | some l, some ls => some (l :: ls)
    | _, _ => none

/-- `Directory::listContents()`: the lines printed, one per cached child. -/
def Directory.listContents (disk : Disk) (d : Directory) : Option (List String) :=
  listLines disk d.contents

/-- `Directory::changeDirectory(newDir)`: when `currentDirectory / newDir` is a
directory on disk, the path member is overwritten and `true` is returned; otherwise
`false`.  The `contents` member is not touched on either branch. -/
def Directory.changeDirectory (disk : Disk) (d : Directory) (newDir : String) :
    Bool × Directory :=
  let newDirectory := joinPath d.currentDirectory newDir
  if disk.is_directory newDirectory then
    (true, { d with currentDirectory := newDirectory })
  else
    (false, d)

/-- `File::changeDirectory(newDir)`. -/
def File.changeDirectory (_f : File) (_newDir : String) : Bool :=
  false

/-! ## Sorting -/

/-- `tolower` in the "C" locale, on a character code. -/
def tolower (c : Nat) : Nat :=
  if 65 ≤ c ∧ c ≤ 90 then c + 32 else c

/-- `c_str()`: the character codes of a string up to the first NUL.  (For UTF-8
text, comparing character codes orders names exactly as comparing bytes does.) -/
def c_str (s : String) : List Nat :=
  (s.data.map Char.toNat).takeWhile (fun c => c ≠ 0)

/-- The comparison loop of `strcasecmp`: the first position where the lowered codes
differ decides; a string that ends first is the smaller one.  Only the sign of the
result is specified, so the result is `-1`, `0` or `1`. -/
def strcasecmpFrom : List Nat → List Nat → Int
  | [], [] => 0
  | [], _ :: _ => -1
  | _ :: _, [] => 1
  | a :: as, b :: bs =>
    if tolower a < tolower b then -1
    else if tolower b < tolower a then 1
    else strcasecmpFrom as bs

/-- `strcasecmp(a.c_str(), b.c_str())`, up to sign. -/
def strcasecmp (a b : String) : Int :=
  strcasecmpFrom (c_str a) (c_str b)

/-- What `std::sort` requires of its comparison: a strict weak ordering. -/
structure StrictWeakOrder {α : Type} (comp : α → α → Bool) : Prop where
  irrefl : ∀ a, comp a a = false
  trans : ∀ a b c, comp a b = true → comp b c = true → comp a c = true
  incomp_trans : ∀ a b c, comp a b = false → comp b a = false → comp b c = false →
    comp c b = false → comp a c = false ∧ comp c a = false

/-- The library routine `std::sort`, constrained by what the C++ standard promises
when the comparison is a strict weak ordering: the result is a rearrangement of the
input in which no element compares less than an earlier one.  Nothing is promised
about the relative order of elements that compare equivalent. -/
structure StdSort where
  sort : (FileSystemComponent → FileSystemComponent → Bool) →
    List FileSystemComponent → List FileSystemComponent
  perm : ∀ comp xs, StrictWeakOrder comp → (sort comp xs).Perm xs
  sorted : ∀ comp xs, StrictWeakOrder comp →
    (sort comp xs).Pairwise (fun a b => comp b a = false)

/-- The comparison lambda of `sortContentsByName`. -/
def nameLess (a b : FileSystemComponent) : Bool :=
  decide (strcasecmp (getName a) (getName b) < 0)

/-- `Directory::sortContentsByName()`. -/
def Directory.sortContentsByName (S : StdSort) (d : Directory) : Directory :=
  { d with contents := S.sort nameLess d.contents }

/-- The comparison lambda of `sortContentsBySize`, on children whose `getSize()`
hands back a value. -/
def sizeLess (disk : Disk) (a b : FileSystemComponent) : Bool :=
  decide ((getSize disk a).getD 0 < (getSize disk b).getD 0)

/-- `Directory::sortContentsBySize()`.  With fewer than two children `std::sort`
makes no comparison.  With two or more, every child is compared at least once, so
the call has a result only when every child's `getSize()` hands back a value. -/
def Directory.sortContentsBySize (S : StdSort) (disk : Disk) (d : Directory) :
    Option Directory :=
  if d.contents.length < 2 ∨ d.contents.all (fun c => (FakeFS.getSize disk c).isSome) then
    some { d with contents := S.sort (sizeLess disk) d.contents }
  else
    none

/-! ## Creation -/

/-- `Directory::createSubdirectory(newDir)`.  Returns `false` when a cached child
already has the name.  Otherwise constructs a `Directory` object over
`currentDirectory / newDir`; when the constructor succeeds the object is appended
and `true` is returned; when it throws, the `catch` block logs and control leaves
the function without a `return` (`none`).  Nothing is written to disk: the disk
handed back is the one received.  (Child names hold no separator, and for such a
name `fs::path` equality with `newDir` is equality of the texts.) -/
def Directory.createSubdirectory (disk : Disk) (d : Directory) (newDir : String) :
    Option Bool × Directory × Disk :=
  let newDirectory := joinPath d.currentDirectory newDir
  if d.contents.any (fun item => getName item == newDir) then
    (some false, d, disk)
  else
    match Directory.new disk newDirectory with
    | some subDir =>
      (some true, { d with contents := d.contents ++ [subDir.toComponent] }, disk)
    | none => (none, d, disk)

/-- `Directory::createFile(newFile, fileSize)`.  When nothing exists at the literal
path `newFile`, a `File` object holding that path and size is appended and `true`
is returned; otherwise `false`.  Nothing is written to disk. -/
def Directory.createFile (disk : Disk) (d : Directory) (newFile : String) (fileSize : Int) :
    Bool × Directory × Disk :=
  if !disk.fs_exists newFile then
    (true, { d with contents := d.contents ++ [.file ⟨newFile, some fileSize⟩] }, disk)
  else
    (false, d, disk)

/-! ## The session -/

/-- The session object `FakeFileSystem`: the current `Directory`. -/
structure FakeFileSystem where
  currentDirectory : Directory

/-- The constructor `FakeFileSystem()`: a `Directory` over `fs::current_path()`. -/
def FakeFileSystem.new (disk : Disk) : Option FakeFileSystem :=
  (Directory.new disk disk.current_path).map FakeFileSystem.mk

/-- `FakeFileSystem::dir()`. -/
def FakeFileSystem.dir (disk : Disk) (fs : FakeFileSystem) : Option (List String) :=
  fs.currentDirectory.listContents disk

/-- `FakeFileSystem::cd(newDir)`. -/
def FakeFileSystem.cd (disk : Disk) (fs : FakeFileSystem) (newDir : String) :
    Bool × FakeFileSystem :=
  let r := fs.currentDirectory.changeDirectory disk newDir
  (r.1, ⟨r.2⟩)

/-- `FakeFileSystem::sortname()`: sort, then list. -/
def FakeFileSystem.sortname (S : StdSort) (disk : Disk) (fs : FakeFileSystem) :
    Option (List String) × FakeFileSystem :=
  let d := fs.currentDirectory.sortContentsByName S
  (d.listContents disk, ⟨d⟩)

/-- `FakeFileSystem::sortsize()`: sort, then list. -/
def FakeFileSystem.sortsize (S : StdSort) (disk : Disk) (fs : FakeFileSystem) :
    Option (List String × FakeFileSystem) :=
  match fs.currentDirectory.sortContentsBySize S disk with
  | some d =>
    match d.listContents disk with
    | some ls => some (ls, ⟨d⟩)
    | none => none
  | none => none

/-- `FakeFileSystem::mkdir(newDir)`: the status line printed (`none` when
`createSubdirectory` handed back no value), the session and the disk afterwards. -/
def FakeFileSystem.mkdir (disk : Disk) (fs : FakeFileSystem) (newDir : String) :
    Option String × FakeFileSystem × Disk :=
  match fs.currentDirectory.createSubdirectory disk newDir with
  | (some true, d, disk1) => (some ("Directory: " ++ newDir ++ " was created"), ⟨d⟩, disk1)
  | (some false, d, disk1) => (some ("Directory: " ++ newDir ++ " already exists"), ⟨d⟩, disk1)
  | (none, d, disk1) => (none, ⟨d⟩, disk1)

/-- `FakeFileSystem::mkfile(newFile)`, with the randomly drawn size as an input. -/
def FakeFileSystem.mkfile (disk : Disk) (fs : FakeFileSystem) (newFile : String)
    (fileSize : Int) : String × FakeFileSystem × Disk :=
  match fs.currentDirectory.createFile disk newFile fileSize with
  | (true, d, disk1) => ("File: " ++ newFile ++ " was created", ⟨d⟩, disk1)
  | (false, d, disk1) => ("File: " ++ newFile ++ " already exists", ⟨d⟩, disk1)

/-! ## The routine behind `std::sort`

Built with GCC the program runs the `std::sort` of libstdc++, which (`std::__sort` in
`bits/stl_algo.h`, with the heap routines of `bits/stl_heap.h`) is an introsort: ranges
of more than 16 elements are partitioned around a median of three, a heap sort takes
over when the depth limit is used up, and an insertion sort finishes.  A range is a
list and an iterator a position in it.  The unguarded loops rely on the comparison
being a strict weak ordering to stop inside the range. -/

/-- The comparison of the elements at two positions; positions outside the sequence
compare false. -/
def compAt {α : Type} (comp : α → α → Bool) (xs : List α) (i j : Nat) : Bool :=
  match xs[i]?, xs[j]? with
  | some a, some b => comp a b
  | _, _ => false

/-- `std::iter_swap` on two positions of the sequence. -/
def iterSwap {α : Type} (xs : List α) (i j : Nat) : List α :=
  match xs[i]?, xs[j]? with
  | some a, some b => (xs.set i b).set j a
  | _, _ => xs

/-- `std::__lg`: the floor of the binary logarithm. -/
def lgFrom : Nat → Nat → Nat
  | 0, _ => 0
  | fuel + 1, n => if 2 ≤ n then lgFrom fuel (n / 2) + 1 else 0

/-- `__unguarded_linear_insert`: the value moves left past every element it compares
less than, and stops behind the first one it does not compare less than. -/
def unguardedLinearInsert {α : Type} (comp : α → α → Bool) (val : α) (sorted : List α) :
    List α :=
  (sorted.reverse.dropWhile (fun next => comp val next)).reverse ++ val ::
    (sorted.reverse.takeWhile (fun next => comp val next)).reverse

/-- One round of the loop of `__insertion_sort`: an element that compares less than
the first one is moved to the front, any other is inserted from the back. -/
def insertionStep {α : Type} (comp : α → α → Bool) (x : α) (sorted : List α) : List α :=
  match sorted with
  | [] => [x]
  | first :: _ => if comp x first then x :: sorted else unguardedLinearInsert comp x sorted

/-- The loop of `__insertion_sort`, with the part already in order and the part still
to insert. -/
def insertionLoop {α : Type} (comp : α → α → Bool) : List α → List α → List α
  | sorted, [] => sorted
  | sorted, x :: rest => insertionLoop comp (insertionStep comp x sorted) rest

/-- `__insertion_sort`. -/
def insertionSortRange {α : Type} (comp : α → α → Bool) : List α → List α
  | [] => []
  | x :: rest => insertionLoop comp [x] rest

/-- `__unguarded_insertion_sort`, inserting into the part already in order. -/
def unguardedInsertionLoop {α : Type} (comp : α → α → Bool) : List α → List α → List α
  | sorted, [] => sorted
  | sorted, x :: rest =>
    unguardedInsertionLoop comp (unguardedLinearInsert comp x sorted) rest

/-- `__final_insertion_sort`, with `_S_threshold = 16`. -/
def finalInsertionSort {α : Type} (comp : α → α → Bool) (xs : List α) : List α :=
  if 16 < xs.length then
    unguardedInsertionLoop comp (insertionSortRange comp (xs.take 16)) (xs.drop 16)
  else
    insertionSortRange comp xs

/-- `__move_median_to_first(result, a, b, c)` on positions of the sequence. -/
def moveMedianToFirst {α : Type} (comp : α → α → Bool) (xs : List α) (result a b c : Nat) :
    List α :=
  if compAt comp xs a b then
    if compAt comp xs b c then iterSwap xs result b
    else if compAt comp xs a c then iterSwap xs result c
    else iterSwap xs result a
  else if compAt comp xs a c then iterSwap xs result a
  else if compAt comp xs b c then iterSwap xs result c
  else iterSwap xs result b

/-- The loop `while (comp(first, pivot)) ++first`. -/
def scanUp {α : Type} (comp : α → α → Bool) (xs : List α) (pivot : Nat) : Nat → Nat → Nat
  | 0, first => first
  | fuel + 1, first =>
    if compAt comp xs first pivot then scanUp comp xs pivot fuel (first + 1) else first

/-- The loop `while (comp(pivot, last)) --last`. -/
def scanDown {α : Type} (comp : α → α → Bool) (xs : List α) (pivot : Nat) : Nat → Nat
  | 0 => 0
  | last + 1 =>
    if compAt comp xs pivot (last + 1) then scanDown comp xs pivot last else last + 1

/-- `__unguarded_partition(first, last, pivot)`: the sequence after the swaps and the
cut position returned. -/
def unguardedPartition {α : Type} (comp : α → α → Bool) (pivot : Nat) :
    Nat → List α → Nat → Nat → List α × Nat
  | 0, xs, first, _ => (xs, first)
  | fuel + 1, xs, first, last =>
    let first1 := scanUp comp xs pivot xs.length first
    let last1 := scanDown comp xs pivot (last - 1)
    if first1 < last1 then
      unguardedPartition comp pivot fuel (iterSwap xs first1 last1) (first1 + 1) last1
    else
      (xs, first1)

/-- `__unguarded_partition_pivot` on a whole range. -/
def unguardedPartitionPivot {α : Type} (comp : α → α → Bool) (xs : List α) : List α × Nat :=
  unguardedPartition comp 0 xs.length
    (moveMedianToFirst comp xs 0 1 (xs.length / 2) (xs.length - 1)) 1 xs.length

/-- The loop of `__push_heap`, the carried value sitting at `holeIndex`. -/
def pushHeap {α : Type} (comp : α → α → Bool) (topIndex : Nat) : Nat → List α → Nat → List α
  | 0, xs, _ => xs
  | fuel + 1, xs, holeIndex =>
    if topIndex < holeIndex ∧ compAt comp xs ((holeIndex - 1) / 2) holeIndex = true then
      pushHeap comp topIndex fuel (iterSwap xs holeIndex ((holeIndex - 1) / 2))
        ((holeIndex - 1) / 2)
    else xs

/-- The first loop of `__adjust_heap`: the hole moves down to the larger child. -/
def holeDown {α : Type} (comp : α → α → Bool) (len : Nat) : Nat → List α → Nat → List α × Nat
  | 0, xs, holeIndex => (xs, holeIndex)
  | fuel + 1, xs, holeIndex =>
    if holeIndex < (len - 1) / 2 then
      let secondChild :=
        if compAt comp xs (2 * (holeIndex + 1)) (2 * (holeIndex + 1) - 1) then
          2 * (holeIndex + 1) - 1
        else 2 * (holeIndex + 1)
      holeDown comp len fuel (iterSwap xs holeIndex secondChild) secondChild
    else (xs, holeIndex)

/-- `__adjust_heap(first, holeIndex, len, value)`, the value sitting at `holeIndex`:
moving the hole to a child and storing the value there is a swap of the two. -/
def adjustHeap {α : Type} (comp : α → α → Bool) (xs : List α) (holeIndex len : Nat) : List α :=
  let down := holeDown comp len len xs holeIndex
  let last :=
    if len % 2 = 0 ∧ down.2 = (len - 2) / 2 then
      (iterSwap down.1 down.2 (2 * (down.2 + 1) - 1), 2 * (down.2 + 1) - 1)
    else down
  pushHeap comp holeIndex len last.1 last.2

/-- The loop of `__make_heap`, from `parent` down to zero. -/
def makeHeapFrom {α : Type} (comp : α → α → Bool) (len : Nat) : Nat → List α → List α
  | 0, xs => adjustHeap comp xs 0 len
  | parent + 1, xs => makeHeapFrom comp len parent (adjustHeap comp xs (parent + 1) len)

/-- `__make_heap`. -/
def makeHeap {α : Type} (comp : α → α → Bool) (xs : List α) : List α :=
  if xs.length < 2 then xs else makeHeapFrom comp xs.length ((xs.length - 2) / 2) xs

/-- `__sort_heap`: the loop over `last`, each round a `__pop_heap(first, last, last)`. -/
def sortHeap {α : Type} (comp : α → α → Bool) : Nat → List α → List α
  | 0, xs => xs
  | last + 1, xs =>
    if 1 < last + 1 then sortHeap comp last (adjustHeap comp (iterSwap xs 0 last) 0 last)
    else xs

/-- `__partial_sort(first, last, last)`: a heap sort of the whole range. -/
def partialSort {α : Type} (comp : α → α → Bool) (xs : List α) : List α :=
  sortHeap comp xs.length (makeHeap comp xs)

/-- `__introsort_loop` on a whole range: a range of more than 16 elements is
partitioned, both parts are treated in turn with the depth limit lowered by one; at
depth limit zero the range is heap sorted. -/
def introsortLoop {α : Type} (comp : α → α → Bool) : Nat → List α → List α
  | 0, xs => if 16 < xs.length then partialSort comp xs else xs
  | depth + 1, xs =>
    if 16 < xs.length then
      introsortLoop comp depth ((unguardedPartitionPivot comp xs).1.take
          (unguardedPartitionPivot comp xs).2) ++
        introsortLoop comp depth ((unguardedPartitionPivot comp xs).1.drop
          (unguardedPartitionPivot comp xs).2)
    else xs

/-- `std::sort` as libstdc++ implements it (`std::__sort`). -/
def libstdcxxSort {α : Type} (comp : α → α → Bool) (xs : List α) : List α :=
  if xs.isEmpty then xs
  else finalInsertionSort comp (introsortLoop comp (lgFrom xs.length xs.length * 2) xs)

/-! ## A second routine that meets the promises of `std::sort` -/

/-- A sorting routine that first rearranges its input by `pre` and then inserts the
elements one by one, each before the first element that does not compare less than
it.  Whatever the rearrangement, the routine meets the promises of `std::sort`. -/
def StdSort.ofArrange (pre : List FileSystemComponent → List FileSystemComponent)
    (hpre : ∀ xs, (pre xs).Perm xs) : StdSort where
  sort := fun comp xs => List.insertionSort (fun a b => comp b a = false) (pre xs)
  perm := fun comp xs _ =>
    (List.perm_insertionSort (fun a b => comp b a = false) (pre xs)).trans (hpre xs)
  sorted := fun comp xs h => by
    haveI : IsTotal FileSystemComponent (fun a b => comp b a = false) := ⟨fun a b => by
      cases hba : comp b a
      · exact Or.inl rfl
      · cases hab : comp a b
        · exact Or.inr rfl
        · have haa := h.trans a b a hab hba
          rw [h.irrefl a] at haa
          exact absurd haa (by decide)⟩
    haveI : IsTrans FileSystemComponent (fun a b => comp b a = false) := ⟨fun a b c hba hcb => by
      show comp c a = false
      cases hca : comp c a
      · rfl
      · exfalso
        cases hbc : comp b c
        · cases hab : comp a b
          · have hac := (h.incomp_trans a b c hab hba hbc hcb).2
            rw [hca] at hac
            exact absurd hac (by decide)
          · have hcb2 := h.trans c a b hca hab
            rw [hcb] at hcb2
            exact absurd hcb2 (by decide)
        · have hba2 := h.trans b c a hbc hca
          rw [hba] at hba2
          exact absurd hba2 (by decide)⟩
    exact List.sorted_insertionSort (fun a b => comp b a = false) (pre xs)

/-- Insertion sort on the input as given: equivalent elements keep their order. -/
def insertionStdSort : StdSort :=
  StdSort.ofArrange id (fun xs => List.Perm.refl xs)

/-- The key `sortContentsByName` orders by: the lowered character codes of the name. -/
def foldedName (c : FileSystemComponent) : List Nat :=
  (c_str (getName c)).map tolower

/-- The order on keys that `strcasecmp` induces: equal, or compared less. -/
def foldedLe (k1 k2 : List Nat) : Prop :=
  k1 = k2 ∨ strcasecmpFrom k1 k2 < 0

/-! ## Example disks and sessions -/

/-- A disk whose working directory `/w` holds an empty directory `x` and a regular
file `a.txt` of three bytes. -/
def shellDisk : Disk :=
  Disk.ofTree [.dir "w" [.dir "x" [], .regular "a.txt" 3]] ["w"]

/-- The session the program starts with on `shellDisk`. -/
def shellSession : FakeFileSystem :=
  ⟨⟨"/w", [.directory "/w/x" [], .file ⟨"/w/a.txt", none⟩]⟩⟩

/-- A disk whose working directory `/w` holds `report.txt` and a directory `docs`
with one file in it. -/
def reportDisk : Disk :=
  Disk.ofTree [.dir "w" [.regular "report.txt" 40, .dir "docs" [.regular "notes" 7]]] ["w"]

/-- The `Directory` object for `/w/docs` on `reportDisk`. -/
def docsDirectory : Directory :=
  ⟨"/w/docs", [.file ⟨"/w/docs/notes", none⟩]⟩

/-- A disk whose working directory `/w` holds two regular files of five bytes each. -/
def twinDisk : Disk :=
  Disk.ofTree [.dir "w" [.regular "p" 5, .regular "q" 5]] ["w"]

/-- The `Directory` object for `/w` on `twinDisk`. -/
def twinDirectory : Directory :=
  ⟨"/w", [.file ⟨"/w/p", none⟩, .file ⟨"/w/q", none⟩]⟩

/-- Twenty names that differ only in letter case. -/
def manyNames : List String :=
  ["hello", "Hello", "hEllo", "HEllo", "heLlo", "HeLlo", "hELlo", "HELlo", "helLo", "HelLo",
    "hElLo", "HElLo", "heLLo", "HeLLo", "hELLo", "HELLo", "hellO", "HellO", "hEllO", "HEllO"]

/-- A disk whose working directory `/w` holds twenty regular files of five bytes each,
named by `manyNames` and enumerated in that order. -/
def manyDisk : Disk :=
  Disk.ofTree [.dir "w" (manyNames.map (fun n => .regular n 5))] ["w"]

/-- The `Directory` object for `/w` on `manyDisk`. -/
def manyDirectory : Directory :=
  ⟨"/w", manyNames.map (fun n => .file ⟨joinPath "/w" n, none⟩)⟩

/-- A directory object holding two children whose names differ only in letter case. -/
def caseDirectory : Directory :=
  ⟨"/w", [.file ⟨"/w/a", none⟩, .file ⟨"/w/A", none⟩]⟩

/-! ## Facts about the comparison of names -/

theorem tolower_tolower (c : Nat) : tolower (tolower c) = tolower c := by
  unfold tolower
  split_ifs <;> omega

theorem strcasecmpFrom_self (a : List Nat) : strcasecmpFrom a a = 0 := by
  induction a with
  | nil => rfl
  | cons x xs ih => simp [strcasecmpFrom, ih]

theorem strcasecmpFrom_swap (a b : List Nat) : strcasecmpFrom b a = - strcasecmpFrom a b := by
  induction a generalizing b with
  | nil => cases b <;> simp [strcasecmpFrom]
  | cons x xs ih =>
    cases b with
    | nil => simp [strcasecmpFrom]
    | cons y ys =>
      simp only [strcasecmpFrom]
      split_ifs <;> first | omega | exact ih ys

theorem strcasecmpFrom_trans (a b c : List Nat) (hab : strcasecmpFrom a b ≤ 0)
    (hbc : strcasecmpFrom b c ≤ 0) :
    strcasecmpFrom a c ≤ 0 ∧
      (strcasecmpFrom a b < 0 ∨ strcasecmpFrom b c < 0 → strcasecmpFrom a c < 0) := by
  induction a generalizing b c with
  | nil =>
    cases b <;> cases c <;> simp_all [strcasecmpFrom]
  | cons x xs ih =>
    cases b with
    | nil => simp [strcasecmpFrom] at hab
    | cons y ys =>
      cases c with
      | nil =>
        simp only [strcasecmpFrom] at hbc
        omega
      | cons z zs =>
        simp only [strcasecmpFrom] at hab hbc ⊢
        split_ifs at hab hbc ⊢ <;> first | omega | exact ih ys zs hab hbc

theorem strcasecmpFrom_eq_zero (a b : List Nat) (h : strcasecmpFrom a b = 0) :
    a.map tolower = b.map tolower := by
  induction a generalizing b with
  | nil => cases b <;> simp_all [strcasecmpFrom]
  | cons x xs ih =>
    cases b with
    | nil => simp [strcasecmpFrom] at h
    | cons y ys =>
      simp only [strcasecmpFrom] at h
      split_ifs at h with h1 h2
      · omega
      · simp only [List.map_cons, List.cons.injEq]
        exact ⟨by omega, ih ys h⟩

theorem strcasecmpFrom_map_tolower (a b : List Nat) :
    strcasecmpFrom (a.map tolower) (b.map tolower) = strcasecmpFrom a b := by
  induction a generalizing b with
  | nil => cases b <;> simp [strcasecmpFrom]
  | cons x xs ih =>
    cases b with
    | nil => simp [strcasecmpFrom]
    | cons y ys => simp [strcasecmpFrom, tolower_tolower, ih]

theorem nameLess_iff (a b : FileSystemComponent) :
    nameLess a b = true ↔ strcasecmp (getName a) (getName b) < 0 := by
  simp [nameLess]

theorem nameLess_eq_false_iff (a b : FileSystemComponent) :
    nameLess a b = false ↔ strcasecmp (getName b) (getName a) ≤ 0 := by
  unfold nameLess strcasecmp
  rw [strcasecmpFrom_swap (c_str (getName a)) (c_str (getName b))]
  simp

theorem nameLess_strictWeakOrder : StrictWeakOrder nameLess where
  irrefl := fun a => by simp [nameLess, strcasecmp, strcasecmpFrom_self]
  trans := fun a b c hab hbc => by
    rw [nameLess_iff] at hab hbc ⊢
    exact (strcasecmpFrom_trans _ _ _ (le_of_lt hab) (le_of_lt hbc)).2 (Or.inl hab)
  incomp_trans := fun a b c hab hba hbc hcb => by
    rw [nameLess_eq_false_iff] at hab hba hbc hcb ⊢
    rw [nameLess_eq_false_iff]
    exact ⟨(strcasecmpFrom_trans _ _ _ hbc hab).1, (strcasecmpFrom_trans _ _ _ hba hcb).1⟩

theorem sizeLess_strictWeakOrder (disk : Disk) : StrictWeakOrder (sizeLess disk) where
  irrefl := fun a => by simp [sizeLess]
  trans := fun a b c hab hbc => by
    simp only [sizeLess, decide_eq_true_eq] at hab hbc ⊢
    omega
  incomp_trans := fun a b c hab hba hbc hcb => by
    simp only [sizeLess, decide_eq_false_iff_not, not_lt] at hab hba hbc hcb ⊢
    omega

/-! ## Facts about the routine behind `std::sort` -/

theorem StrictWeakOrder.asymm {α : Type} {comp : α → α → Bool} (h : StrictWeakOrder comp)
    (a b : α) (hab : comp a b = true) : comp b a = false := by
  cases hba : comp b a
  · rfl
  · have haa := h.trans a b a hab hba
    rw [h.irrefl a] at haa
    exact absurd haa (by decide)

theorem StrictWeakOrder.le_trans {α : Type} {comp : α → α → Bool} (h : StrictWeakOrder comp)
    (a b c : α) (hba : comp b a = false) (hcb : comp c b = false) : comp c a = false := by
  cases hca : comp c a
  · rfl
  · exfalso
    cases hbc : comp b c
    · cases hab : comp a b
      · have hac := (h.incomp_trans a b c hab hba hbc hcb).2
        rw [hca] at hac
        exact absurd hac (by decide)
      · have hcb2 := h.trans c a b hca hab
        rw [hcb] at hcb2
        exact absurd hcb2 (by decide)
    · have hba2 := h.trans b c a hbc hca
      rw [hba] at hba2
      exact absurd hba2 (by decide)

theorem StrictWeakOrder.lt_of_lt_of_le {α : Type} {comp : α → α → Bool}
    (h : StrictWeakOrder comp) (a b c : α) (hab : comp a b = true) (hcb : comp c b = false) :
    comp a c = true := by
  cases hac : comp a c
  · exfalso
    have hba := h.asymm a b hab
    have hca : comp c a = false := h.le_trans a b c hba hcb
    cases hbc : comp b c
    · have := (h.incomp_trans a c b hac hca hcb hbc).1
      rw [hab] at this
      exact absurd this (by decide)
    · have := h.trans a b c hab hbc
      rw [hac] at this
      exact absurd this (by decide)
  · rfl

theorem set_cons_perm {α : Type} (a b : α) :
    ∀ (t : List α) (j : Nat), t[j]? = some b → (b :: t.set j a).Perm (a :: t)
  | [], j, h => by simp at h
  | y :: t, 0, h => by
    simp only [List.getElem?_cons_zero, Option.some.injEq] at h
    subst h
    simpa using List.Perm.swap a y t
  | y :: t, j + 1, h => by
    simp only [List.getElem?_cons_succ] at h
    have ih := set_cons_perm a b t j h
    simp only [List.set_cons_succ]
    exact ((List.Perm.swap y b _).trans (ih.cons y)).trans (List.Perm.swap a y t)

theorem set_set_perm {α : Type} (a b : α) :
    ∀ (l : List α) (i j : Nat), l[i]? = some a → l[j]? = some b →
      ((l.set i b).set j a).Perm l
  | [], i, _, hi, _ => by simp at hi
  | x :: t, 0, 0, hi, hj => by
    simp only [List.getElem?_cons_zero, Option.some.injEq] at hi hj
    subst hi
    simp
  | x :: t, 0, j + 1, hi, hj => by
    simp only [List.getElem?_cons_zero, Option.some.injEq, List.getElem?_cons_succ] at hi hj
    subst hi
    simpa using set_cons_perm x b t j hj
  | x :: t, i + 1, 0, hi, hj => by
    simp only [List.getElem?_cons_zero, Option.some.injEq, List.getElem?_cons_succ] at hi hj
    subst hj
    simpa using set_cons_perm x a t i hi
  | x :: t, i + 1, j + 1, hi, hj => by
    simp only [List.getElem?_cons_succ] at hi hj
    simpa using (set_set_perm a b t i j hi hj).cons x

theorem iterSwap_perm {α : Type} (xs : List α) (i j : Nat) : (iterSwap xs i j).Perm xs := by
  unfold iterSwap
  cases hi : xs[i]? with
  | none => exact List.Perm.refl _
  | some a =>
    cases hj : xs[j]? with
    | none => exact List.Perm.refl _
    | some b => exact set_set_perm a b xs i j hi hj


theorem moveMedianToFirst_perm {α : Type} (comp : α → α → Bool) (xs : List α)
    (result a b c : Nat) : (moveMedianToFirst comp xs result a b c).Perm xs := by
  unfold moveMedianToFirst
  split_ifs <;> exact iterSwap_perm _ _ _

theorem unguardedPartition_perm {α : Type} (comp : α → α → Bool) (pivot : Nat) :
    ∀ (fuel : Nat) (xs : List α) (first last : Nat),
      (unguardedPartition comp pivot fuel xs first last).1.Perm xs
  | 0, xs, first, last => List.Perm.refl _
  | fuel + 1, xs, first, last => by
    simp only [unguardedPartition]
    split_ifs
    · exact (unguardedPartition_perm comp pivot fuel _ _ _).trans (iterSwap_perm _ _ _)
    · exact List.Perm.refl _

theorem unguardedPartitionPivot_perm {α : Type} (comp : α → α → Bool) (xs : List α) :
    (unguardedPartitionPivot comp xs).1.Perm xs :=
  (unguardedPartition_perm comp 0 _ _ _ _).trans (moveMedianToFirst_perm comp xs _ _ _ _)

theorem pushHeap_perm {α : Type} (comp : α → α → Bool) (topIndex : Nat) :
    ∀ (fuel : Nat) (xs : List α) (holeIndex : Nat),
      (pushHeap comp topIndex fuel xs holeIndex).Perm xs
  | 0, xs, _ => List.Perm.refl _
  | fuel + 1, xs, holeIndex => by
    simp only [pushHeap]
    split_ifs
    · exact (pushHeap_perm comp topIndex fuel _ _).trans (iterSwap_perm _ _ _)
    · exact List.Perm.refl _

theorem holeDown_perm {α : Type} (comp : α → α → Bool) (len : Nat) :
    ∀ (fuel : Nat) (xs : List α) (holeIndex : Nat),
      (holeDown comp len fuel xs holeIndex).1.Perm xs
  | 0, xs, _ => List.Perm.refl _
  | fuel + 1, xs, holeIndex => by
    simp only [holeDown]
    split_ifs
    · exact (holeDown_perm comp len fuel _ _).trans (iterSwap_perm _ _ _)
    · exact (holeDown_perm comp len fuel _ _).trans (iterSwap_perm _ _ _)
    · exact List.Perm.refl _

theorem adjustHeap_perm {α : Type} (comp : α → α → Bool) (xs : List α) (holeIndex len : Nat) :
    (adjustHeap comp xs holeIndex len).Perm xs := by
  simp only [adjustHeap]
  refine (pushHeap_perm comp holeIndex len _ _).trans ?_
  split_ifs
  · exact (iterSwap_perm _ _ _).trans (holeDown_perm comp len len xs holeIndex)
  · exact holeDown_perm comp len len xs holeIndex

theorem makeHeapFrom_perm {α : Type} (comp : α → α → Bool) (len : Nat) :
    ∀ (parent : Nat) (xs : List α), (makeHeapFrom comp len parent xs).Perm xs
  | 0, xs => adjustHeap_perm comp xs 0 len
  | parent + 1, xs =>
    (makeHeapFrom_perm comp len parent _).trans (adjustHeap_perm comp xs (parent + 1) len)

theorem sortHeap_perm {α : Type} (comp : α → α → Bool) :
    ∀ (last : Nat) (xs : List α), (sortHeap comp last xs).Perm xs
  | 0, xs => List.Perm.refl _
  | last + 1, xs => by
    simp only [sortHeap]
    split_ifs
    · exact ((sortHeap_perm comp last _).trans (adjustHeap_perm comp _ 0 last)).trans
        (iterSwap_perm _ _ _)
    · exact List.Perm.refl _

theorem partialSort_perm {α : Type} (comp : α → α → Bool) (xs : List α) :
    (partialSort comp xs).Perm xs := by
  unfold partialSort makeHeap
  refine (sortHeap_perm comp _ _).trans ?_
  split_ifs
  · exact List.Perm.refl _
  · exact makeHeapFrom_perm comp _ _ _

theorem introsortLoop_perm {α : Type} (comp : α → α → Bool) :
    ∀ (depth : Nat) (xs : List α), (introsortLoop comp depth xs).Perm xs
  | 0, xs => by
    simp only [introsortLoop]
    split_ifs
    · exact partialSort_perm comp xs
    · exact List.Perm.refl _
  | depth + 1, xs => by
    simp only [introsortLoop]
    split_ifs
    · refine ((introsortLoop_perm comp depth _).append (introsortLoop_perm comp depth _)).trans ?_
      rw [List.take_append_drop]
      exact unguardedPartitionPivot_perm comp xs
    · exact List.Perm.refl _

theorem introsortLoop_short {α : Type} (comp : α → α → Bool) (depth : Nat) (xs : List α)
    (h : xs.length ≤ 16) : introsortLoop comp depth xs = xs := by
  cases depth <;> simp [introsortLoop, Nat.not_lt.mpr h]

theorem unguardedLinearInsert_nil {α : Type} (comp : α → α → Bool) (val : α) :
    unguardedLinearInsert comp val [] = [val] := rfl

theorem unguardedLinearInsert_concat {α : Type} (comp : α → α → Bool) (val e : α)
    (sorted : List α) :
    unguardedLinearInsert comp val (sorted ++ [e])
      = if comp val e then unguardedLinearInsert comp val sorted ++ [e]
        else sorted ++ [e, val] := by
  unfold unguardedLinearInsert
  by_cases h : comp val e = true
  · simp [List.takeWhile_cons, List.dropWhile_cons, h]
  · simp [List.takeWhile_cons, List.dropWhile_cons, h]

theorem unguardedLinearInsert_perm {α : Type} (comp : α → α → Bool) (val : α)
    (sorted : List α) : (unguardedLinearInsert comp val sorted).Perm (val :: sorted) := by
  unfold unguardedLinearInsert
  refine List.perm_middle.trans (List.Perm.cons val ?_)
  rw [← List.reverse_append, List.takeWhile_append_dropWhile, List.reverse_reverse]

theorem unguardedLinearInsert_sorted {α : Type} {comp : α → α → Bool}
    (h : StrictWeakOrder comp) (val : α) (sorted : List α)
    (hs : sorted.Pairwise (fun a b => comp b a = false)) :
    (unguardedLinearInsert comp val sorted).Pairwise (fun a b => comp b a = false) := by
  induction sorted using List.reverseRecOn with
  | nil => simp [unguardedLinearInsert_nil]
  | append_singleton pre e ih =>
    rw [List.pairwise_append] at hs
    rw [unguardedLinearInsert_concat]
    split_ifs with hc
    · rw [List.pairwise_append]
      refine ⟨ih hs.1, List.pairwise_singleton _ _, ?_⟩
      intro k hk b hb
      rw [List.mem_singleton] at hb
      subst hb
      rcases List.mem_cons.mp ((unguardedLinearInsert_perm comp val pre).mem_iff.mp hk) with hk | hk
      · subst hk
        exact h.asymm _ _ hc
      · exact hs.2.2 k hk b (List.mem_singleton_self b)
    · have hve : comp val e = false := by simpa using hc
      have : pre ++ [e, val] = (pre ++ [e]) ++ [val] := by simp
      rw [this, List.pairwise_append]
      refine ⟨List.pairwise_append.mpr hs, List.pairwise_singleton _ _, ?_⟩
      intro k hk b hb
      rw [List.mem_singleton] at hb
      subst hb
      rcases List.mem_append.mp hk with hk | hk
      · exact h.le_trans k e b (hs.2.2 k hk e (List.mem_singleton_self e)) hve
      · rw [List.mem_singleton] at hk
        subst hk
        exact hve

theorem insertionStep_perm {α : Type} (comp : α → α → Bool) (x : α) (sorted : List α) :
    (insertionStep comp x sorted).Perm (x :: sorted) := by
  unfold insertionStep
  cases sorted with
  | nil => exact List.Perm.refl _
  | cons first t =>
    simp only
    split_ifs
    · exact List.Perm.refl _
    · exact unguardedLinearInsert_perm comp x _

theorem insertionStep_sorted {α : Type} {comp : α → α → Bool} (h : StrictWeakOrder comp)
    (x : α) (sorted : List α) (hs : sorted.Pairwise (fun a b => comp b a = false)) :
    (insertionStep comp x sorted).Pairwise (fun a b => comp b a = false) := by
  unfold insertionStep
  cases sorted with
  | nil => simp
  | cons first t =>
    simp only
    split_ifs with hc
    · refine List.pairwise_cons.mpr ⟨?_, hs⟩
      intro e he
      have hfe : comp e first = false := by
        rcases List.mem_cons.mp he with he | he
        · subst he
          exact h.irrefl e
        · exact (List.pairwise_cons.mp hs).1 e he
      exact h.asymm x e (h.lt_of_lt_of_le x first e hc hfe)
    · exact unguardedLinearInsert_sorted h x _ hs

theorem insertionLoop_perm {α : Type} (comp : α → α → Bool) :
    ∀ (rest sorted : List α), (insertionLoop comp sorted rest).Perm (sorted ++ rest)
  | [], sorted => by simp [insertionLoop]
  | x :: rest, sorted => by
    simp only [insertionLoop]
    refine (insertionLoop_perm comp rest _).trans ?_
    exact ((insertionStep_perm comp x sorted).append_right rest).trans
      (List.perm_middle.symm)

theorem insertionLoop_sorted {α : Type} {comp : α → α → Bool} (h : StrictWeakOrder comp) :
    ∀ (rest sorted : List α), sorted.Pairwise (fun a b => comp b a = false) →
      (insertionLoop comp sorted rest).Pairwise (fun a b => comp b a = false)
  | [], _, hs => hs
  | x :: rest, sorted, hs =>
    insertionLoop_sorted h rest _ (insertionStep_sorted h x sorted hs)

theorem unguardedInsertionLoop_perm {α : Type} (comp : α → α → Bool) :
    ∀ (rest sorted : List α), (unguardedInsertionLoop comp sorted rest).Perm (sorted ++ rest)
  | [], sorted => by simp [unguardedInsertionLoop]
  | x :: rest, sorted => by
    simp only [unguardedInsertionLoop]
    refine (unguardedInsertionLoop_perm comp rest _).trans ?_
    exact ((unguardedLinearInsert_perm comp x sorted).append_right rest).trans
      (List.perm_middle.symm)

theorem unguardedInsertionLoop_sorted {α : Type} {comp : α → α → Bool}
    (h : StrictWeakOrder comp) :
    ∀ (rest sorted : List α), sorted.Pairwise (fun a b => comp b a = false) →
      (unguardedInsertionLoop comp sorted rest).Pairwise (fun a b => comp b a = false)
  | [], _, hs => hs
  | x :: rest, sorted, hs =>
    unguardedInsertionLoop_sorted h rest _ (unguardedLinearInsert_sorted h x sorted hs)

theorem insertionSortRange_perm {α : Type} (comp : α → α → Bool) (xs : List α) :
    (insertionSortRange comp xs).Perm xs := by
  cases xs with
  | nil => exact List.Perm.refl _
  | cons x rest => exact insertionLoop_perm comp rest [x]

theorem insertionSortRange_sorted {α : Type} {comp : α → α → Bool}
    (h : StrictWeakOrder comp) (xs : List α) :
    (insertionSortRange comp xs).Pairwise (fun a b => comp b a = false) := by
  cases xs with
  | nil => exact List.Pairwise.nil
  | cons x rest => exact insertionLoop_sorted h rest [x] (List.pairwise_singleton _ _)

theorem finalInsertionSort_perm {α : Type} (comp : α → α → Bool) (xs : List α) :
    (finalInsertionSort comp xs).Perm xs := by
  unfold finalInsertionSort
  split_ifs
  · refine (unguardedInsertionLoop_perm comp _ _).trans ?_
    refine ((insertionSortRange_perm comp _).append_right _).trans ?_
    rw [List.take_append_drop]
  · exact insertionSortRange_perm comp xs

theorem finalInsertionSort_sorted {α : Type} {comp : α → α → Bool}
    (h : StrictWeakOrder comp) (xs : List α) :
    (finalInsertionSort comp xs).Pairwise (fun a b => comp b a = false) := by
  unfold finalInsertionSort
  split_ifs
  · exact unguardedInsertionLoop_sorted h _ _ (insertionSortRange_sorted h _)
  · exact insertionSortRange_sorted h xs

/-- The routine behind `std::sort` rearranges its input. -/
theorem libstdcxxSort_perm {α : Type} (comp : α → α → Bool) (xs : List α)
    (_h : StrictWeakOrder comp) : (libstdcxxSort comp xs).Perm xs := by
  unfold libstdcxxSort
  split_ifs
  · exact List.Perm.refl _
  · exact (finalInsertionSort_perm comp _).trans (introsortLoop_perm comp _ xs)

/-- Under a strict weak ordering, no element of the result of the routine behind
`std::sort` compares less than an earlier one. -/
theorem libstdcxxSort_sorted {α : Type} (comp : α → α → Bool) (xs : List α)
    (h : StrictWeakOrder comp) :
    (libstdcxxSort comp xs).Pairwise (fun a b => comp b a = false) := by
  unfold libstdcxxSort
  split_ifs with he
  · have : xs = [] := by simpa using he
    rw [this]
    exact List.Pairwise.nil
  · exact finalInsertionSort_sorted h _

/-- On at most 16 elements the routine behind `std::sort` is `__insertion_sort`. -/
theorem libstdcxxSort_short {α : Type} (comp : α → α → Bool) (xs : List α)
    (h : xs.length ≤ 16) : libstdcxxSort comp xs = insertionSortRange comp xs := by
  unfold libstdcxxSort
  split_ifs with he
  · have : xs = [] := by simpa using he
    rw [this]
    rfl
  · rw [introsortLoop_short comp _ xs h]
    unfold finalInsertionSort
    rw [if_neg (Nat.not_lt.mpr h)]

theorem unguardedLinearInsert_of_le {α : Type} (comp : α → α → Bool) (val : α)
    (sorted : List α) (h : ∀ e ∈ sorted, comp val e = false) :
    unguardedLinearInsert comp val sorted = sorted ++ [val] := by
  rcases List.eq_nil_or_concat sorted with hnil | ⟨pre, e, hpre⟩
  · rw [hnil]
    rfl
  · rw [hpre]
    have he : comp val e = false := h e (by rw [hpre]; simp)
    rw [List.concat_eq_append, unguardedLinearInsert_concat, he]
    simp

theorem insertionStep_of_le {α : Type} (comp : α → α → Bool) (x : α) (sorted : List α)
    (h : ∀ e ∈ sorted, comp x e = false) : insertionStep comp x sorted = sorted ++ [x] := by
  unfold insertionStep
  cases sorted with
  | nil => rfl
  | cons first t =>
    simp only
    rw [if_neg (by simp [h first (List.mem_cons_self _ _)])]
    exact unguardedLinearInsert_of_le comp x _ h

theorem insertionLoop_of_sorted {α : Type} (comp : α → α → Bool) :
    ∀ (rest sorted : List α), (sorted ++ rest).Pairwise (fun a b => comp b a = false) →
      insertionLoop comp sorted rest = sorted ++ rest
  | [], sorted, _ => by simp [insertionLoop]
  | x :: rest, sorted, hs => by
    simp only [insertionLoop]
    have hx : ∀ e ∈ sorted, comp x e = false := fun e he =>
      (List.pairwise_append.mp hs).2.2 e he x (List.mem_cons_self _ _)
    rw [insertionStep_of_le comp x sorted hx]
    have hs2 : ((sorted ++ [x]) ++ rest).Pairwise (fun a b => comp b a = false) := by
      simpa using hs
    rw [insertionLoop_of_sorted comp rest _ hs2]
    simp

/-- `__insertion_sort` leaves a sequence that is already in order as it is. -/
theorem insertionSortRange_of_sorted {α : Type} (comp : α → α → Bool) (xs : List α)
    (hs : xs.Pairwise (fun a b => comp b a = false)) : insertionSortRange comp xs = xs := by
  cases xs with
  | nil => rfl
  | cons x rest => exact insertionLoop_of_sorted comp rest [x] hs

/-! ## Navigation -/

/-- `changeDirectory` never touches the cached children, whatever it returns. -/
theorem changeDirectory_contents (disk : Disk) (d : Directory) (newDir : String) :
    (d.changeDirectory disk newDir).2.contents = d.contents := by
  simp only [Directory.changeDirectory]
  split_ifs <;> rfl

/-- A successful `changeDirectory` overwrites the path and nothing else: it returns
true and hands back the same children under the path `currentDirectory / newDir`. -/
theorem changeDirectory_success (disk : Disk) (d : Directory) (newDir : String)
    (h : disk.is_directory (joinPath d.currentDirectory newDir) = true) :
    d.changeDirectory disk newDir
      = (true, ⟨joinPath d.currentDirectory newDir, d.contents⟩) := by
  simp only [Directory.changeDirectory, h, if_true]

theorem changeDirectory_success_witness :
    shellDisk.is_directory (joinPath shellSession.currentDirectory.currentDirectory "x") = true ∧
    shellSession.currentDirectory.changeDirectory shellDisk "x"
      = (true, ⟨joinPath shellSession.currentDirectory.currentDirectory "x",
          shellSession.currentDirectory.contents⟩) :=
  ⟨by decide, changeDirectory_success shellDisk shellSession.currentDirectory "x" (by decide)⟩

/-- C8: when `currentDirectory / newDir` does not exist or is not a directory,
`changeDirectory` and `cd` return false and hand back the directory object and the
session they were given, path and children included; `File::changeDirectory`
returns false for every argument. -/
theorem cd_failure_leaves_session (disk : Disk) (fs : FakeFileSystem) (newDir : String)
    (h : disk.fs_exists (joinPath fs.currentDirectory.currentDirectory newDir) = false ∨
      disk.is_directory (joinPath fs.currentDirectory.currentDirectory newDir) = false) :
    fs.currentDirectory.changeDirectory disk newDir = (false, fs.currentDirectory) ∧
      fs.cd disk newDir = (false, fs) ∧
      ∀ (f : File) (s : String), f.changeDirectory s = false := by
  have hdir : disk.is_directory (joinPath fs.currentDirectory.currentDirectory newDir) = false := by
    rcases h with h | h
    · unfold Disk.fs_exists at h
      unfold Disk.is_directory
      cases hl : disk.lookup (joinPath fs.currentDirectory.currentDirectory newDir) with
      | none => rfl
      | some e => rw [hl] at h; simp at h
    · exact h
  have hcd : fs.currentDirectory.changeDirectory disk newDir = (false, fs.currentDirectory) := by
    unfold Directory.changeDirectory
    simp [hdir]
  refine ⟨hcd, ?_, fun _ _ => rfl⟩
  unfold FakeFileSystem.cd
  rw [hcd]

theorem cd_failure_leaves_session_witness :
    (shellDisk.fs_exists (joinPath shellSession.currentDirectory.currentDirectory
        "does_not_exist") = false ∨
      shellDisk.is_directory (joinPath shellSession.currentDirectory.currentDirectory
        "does_not_exist") = false) ∧
    (shellSession.currentDirectory.changeDirectory shellDisk "does_not_exist"
        = (false, shellSession.currentDirectory) ∧
      shellSession.cd shellDisk "does_not_exist" = (false, shellSession) ∧
      ∀ (f : File) (s : String), f.changeDirectory s = false) :=
  ⟨Or.inl (by decide), cd_failure_leaves_session shellDisk shellSession "does_not_exist"
    (Or.inl (by decide))⟩

/-! ## Creation -/

/-- C9: when a cached child already has exactly the name `newDir`,
`createSubdirectory` returns false and hands back the directory object and the disk
it was given, whatever the disk holds; `mkdir` then reports that the directory
already exists and leaves the session as it was. -/
theorem createSubdirectory_existing_name (disk : Disk) (d : Directory) (newDir : String)
    (h : ∃ c ∈ d.contents, getName c = newDir) :
    d.createSubdirectory disk newDir = (some false, d, disk) ∧
      FakeFileSystem.mkdir disk ⟨d⟩ newDir
        = (some ("Directory: " ++ newDir ++ " already exists"), ⟨d⟩, disk) := by
  have hany : d.contents.any (fun item => getName item == newDir) = true := by
    obtain ⟨c, hc, hn⟩ := h
    exact List.any_eq_true.mpr ⟨c, hc, by simp [hn]⟩
  have hc : d.createSubdirectory disk newDir = (some false, d, disk) := by
    unfold Directory.createSubdirectory
    simp [hany]
  refine ⟨hc, ?_⟩
  unfold FakeFileSystem.mkdir
  rw [hc]

theorem createSubdirectory_existing_name_witness :
    (∃ c ∈ shellSession.currentDirectory.contents, getName c = "x") ∧
    (shellSession.currentDirectory.createSubdirectory shellDisk "x"
        = (some false, shellSession.currentDirectory, shellDisk) ∧
      FakeFileSystem.mkdir shellDisk ⟨shellSession.currentDirectory⟩ "x"
        = (some ("Directory: " ++ "x" ++ " already exists"),
            ⟨shellSession.currentDirectory⟩, shellDisk)) :=
  ⟨⟨.directory "/w/x" [], by simp [shellSession], by decide⟩,
    createSubdirectory_existing_name shellDisk shellSession.currentDirectory "x"
      ⟨.directory "/w/x" [], by simp [shellSession], by decide⟩⟩

/-- C10: when something exists at the literal path `newFile` (resolved against the
working directory, not against the node's own path), `createFile` returns false and
hands back the directory object and the disk it was given; a second call right after
does the same, so no child is added by either. -/
theorem createFile_existing_path (disk : Disk) (d : Directory) (newFile : String)
    (fileSize : Int) (h : disk.fs_exists newFile = true) :
    d.createFile disk newFile fileSize = (false, d, disk) ∧
      (d.createFile disk newFile fileSize).2.1.createFile
          (d.createFile disk newFile fileSize).2.2 newFile fileSize = (false, d, disk) := by
  have hc : d.createFile disk newFile fileSize = (false, d, disk) := by
    unfold Directory.createFile
    simp [h]
  refine ⟨hc, ?_⟩
  rw [hc]
  exact hc

theorem createFile_existing_path_witness :
    reportDisk.fs_exists "report.txt" = true ∧
    reportDisk.fs_exists (joinPath docsDirectory.currentDirectory "report.txt") = false ∧
    (docsDirectory.createFile reportDisk "report.txt" 512 = (false, docsDirectory, reportDisk) ∧
      (docsDirectory.createFile reportDisk "report.txt" 512).2.1.createFile
          (docsDirectory.createFile reportDisk "report.txt" 512).2.2 "report.txt" 512
        = (false, docsDirectory, reportDisk)) :=
  ⟨by decide, by decide,
    createFile_existing_path reportDisk docsDirectory "report.txt" 512 (by decide)⟩

theorem lastSegment_no_separator (acc cs : List Char) (h : '/' ∉ cs) :
    lastSegment acc cs = acc ++ cs := by
  induction cs generalizing acc with
  | nil => simp [lastSegment]
  | cons c cs ih =>
    have hc : c ≠ '/' := fun e => h (by simp [e])
    have hcs : '/' ∉ cs := fun e => h (List.mem_cons_of_mem _ e)
    simp [lastSegment, hc, ih _ hcs]

theorem filename_no_separator (n : String) (h : '/' ∉ n.data) : filename n = n := by
  unfold filename
  rw [lastSegment_no_separator [] n.data h]
  rfl

/-- C3, as amended: when nothing exists at the literal path `newFile`, `createFile`
returns true, hands back the disk it was given, and appends exactly one `File`
object holding the path `newFile` and the stored size `fileSize`; the name of that
object is the final segment of `newFile`, which is `newFile` itself when it holds no
separator. -/
theorem createFile_fresh_path (disk : Disk) (d : Directory) (newFile : String)
    (fileSize : Int) (h : disk.fs_exists newFile = false) :
    d.createFile disk newFile fileSize
        = (true, ⟨d.currentDirectory, d.contents ++ [.file ⟨newFile, some fileSize⟩]⟩, disk) ∧
      isDirectory (.file ⟨newFile, some fileSize⟩) = false ∧
      getName (.file ⟨newFile, some fileSize⟩) = filename newFile ∧
      ('/' ∉ newFile.data → getName (.file ⟨newFile, some fileSize⟩) = newFile) := by
  refine ⟨?_, rfl, rfl, fun hs => filename_no_separator newFile hs⟩
  unfold Directory.createFile
  simp [h]

theorem createFile_fresh_path_witness :
    shellDisk.fs_exists "note" = false ∧
    (shellSession.currentDirectory.createFile shellDisk "note" 5
        = (true, ⟨shellSession.currentDirectory.currentDirectory,
            shellSession.currentDirectory.contents ++ [.file ⟨"note", some 5⟩]⟩, shellDisk) ∧
      isDirectory (.file ⟨"note", some 5⟩) = false ∧
      getName (.file ⟨"note", some 5⟩) = filename "note" ∧
      ('/' ∉ "note".data → getName (.file ⟨"note", some 5⟩) = "note")) :=
  ⟨by decide, createFile_fresh_path shellDisk shellSession.currentDirectory "note" 5 (by decide)⟩

/-- C3, the claim as written fails: nothing exists at the literal path `a/b`, the
call returns true and appends one `File` object, but the name of that object is `b`,
not `a/b`. -/
theorem createFile_name_counterexample :
    shellDisk.fs_exists "a/b" = false ∧
    (shellSession.currentDirectory.createFile shellDisk "a/b" 5).1 = true ∧
    (shellSession.currentDirectory.createFile shellDisk "a/b" 5).2.1.contents
      = shellSession.currentDirectory.contents ++ [.file ⟨"a/b", some 5⟩] ∧
    getName (.file ⟨"a/b", some 5⟩) = "b" ∧
    getName (.file ⟨"a/b", some 5⟩) ≠ "a/b" :=
  ⟨by decide, by decide, rfl, by decide, by decide⟩

/-- When no cached child has the name and `currentDirectory / newDir` is not a
directory on disk, `createSubdirectory` hands back no value and leaves the children
and the disk as they were. -/
theorem createSubdirectory_not_on_disk (disk : Disk) (d : Directory) (newDir : String)
    (hname : ∀ c ∈ d.contents, getName c ≠ newDir)
    (hdisk : disk.is_directory (joinPath d.currentDirectory newDir) = false) :
    d.createSubdirectory disk newDir = (none, d, disk) := by
  have hany : d.contents.any (fun item => getName item == newDir) = false := by
    rw [List.any_eq_false]
    intro c hc
    simpa using hname c hc
  have hnew : Directory.new disk (joinPath d.currentDirectory newDir) = none := by
    unfold Directory.new Disk.directory_iterator
    unfold Disk.is_directory at hdisk
    cases hl : disk.lookup (joinPath d.currentDirectory newDir) with
    | none => rfl
    | some e =>
      rw [hl] at hdisk
      cases e with
      | regular n sz => rfl
      | other n => rfl
      | dir n es => simp at hdisk
  simp only [Directory.createSubdirectory, hany, hnew]
  rfl

theorem createSubdirectory_not_on_disk_witness :
    (∀ c ∈ shellSession.currentDirectory.contents, getName c ≠ "sub") ∧
    shellDisk.is_directory (joinPath shellSession.currentDirectory.currentDirectory "sub")
      = false ∧
    shellSession.currentDirectory.createSubdirectory shellDisk "sub"
      = (none, shellSession.currentDirectory, shellDisk) :=
  ⟨by decide, by decide,
    createSubdirectory_not_on_disk shellDisk shellSession.currentDirectory "sub"
      (by decide) (by decide)⟩

/-- C2, the code at the failing input: in the session started on `shellDisk`, no
child is named `sub` and nothing exists at `/w/sub`; `createSubdirectory "sub"`
hands back no value at all (neither true nor false), the children are as before,
the disk is the one received and still holds nothing at `/w/sub`, and a second call
does exactly the same instead of returning false. -/
theorem createSubdirectory_missing_directory :
    FakeFileSystem.new shellDisk = some shellSession ∧
    shellSession.currentDirectory.contents.any (fun item => getName item == "sub") = false ∧
    shellDisk.fs_exists (joinPath shellSession.currentDirectory.currentDirectory "sub") = false ∧
    shellSession.currentDirectory.createSubdirectory shellDisk "sub"
      = (none, shellSession.currentDirectory, shellDisk) ∧
    (shellSession.currentDirectory.createSubdirectory shellDisk "sub").2.2.fs_exists
      (joinPath shellSession.currentDirectory.currentDirectory "sub") = false ∧
    (shellSession.currentDirectory.createSubdirectory shellDisk "sub").2.1.createSubdirectory
      (shellSession.currentDirectory.createSubdirectory shellDisk "sub").2.2 "sub"
      = (none, shellSession.currentDirectory, shellDisk) ∧
    (FakeFileSystem.mkdir shellDisk shellSession "sub").1 = none :=
  ⟨rfl, by decide, by decide, rfl, by decide, rfl, by decide⟩

/-- C1, the code at the failing input: in the session started on `shellDisk`
(children `x` and `a.txt`), `cd "x"` returns true and the path becomes `/w/x`, a
directory with no entries; yet the children are still those of `/w`, and a following
`dir` prints the two lines of `/w` instead of nothing. -/
theorem cd_keeps_stale_children :
    FakeFileSystem.new shellDisk = some shellSession ∧
    shellDisk.is_directory (joinPath shellSession.currentDirectory.currentDirectory "x") = true ∧
    (shellSession.cd shellDisk "x").1 = true ∧
    (shellSession.cd shellDisk "x").2.currentDirectory.currentDirectory = "/w/x" ∧
    shellDisk.directory_iterator "/w/x" = some [] ∧
    (Directory.new shellDisk "/w/x").map (fun d => d.contents.map getName) = some [] ∧
    (shellSession.cd shellDisk "x").2.currentDirectory.contents.map getName = ["x", "a.txt"] ∧
    (shellSession.cd shellDisk "x").2.dir shellDisk
      = some ["Directory: x 0", "File: a.txt 3"] :=
  ⟨rfl, by decide, by decide, by decide, rfl, by decide, by decide, by decide⟩

/-! ## Sorting by name -/

theorem sortContentsByName_pairwise (S : StdSort) (d : Directory) :
    (d.sortContentsByName S).contents.Pairwise
      (fun a b => ¬ strcasecmp (getName b) (getName a) < 0) := by
  have h := S.sorted nameLess d.contents nameLess_strictWeakOrder
  refine List.Pairwise.imp ?_ h
  intro a b hab
  have := (nameLess_iff b a).not.mp (by simp [hab])
  exact this

theorem foldedLe_of_not_less (a b : FileSystemComponent)
    (h : ¬ strcasecmp (getName b) (getName a) < 0) : foldedLe (foldedName a) (foldedName b) := by
  have hle : strcasecmpFrom (c_str (getName a)) (c_str (getName b)) ≤ 0 := by
    have hs := strcasecmpFrom_swap (c_str (getName b)) (c_str (getName a))
    unfold strcasecmp at h
    omega
  rcases lt_or_eq_of_le hle with hlt | heq
  · right
    unfold foldedName
    rw [strcasecmpFrom_map_tolower]
    exact hlt
  · left
    exact strcasecmpFrom_eq_zero _ _ heq

theorem foldedLe_antisymm (a b : List Nat) (hab : foldedLe a b) (hba : foldedLe b a) :
    a = b := by
  rcases hab with h | h
  · exact h
  · rcases hba with h2 | h2
    · exact h2.symm
    · have hs := strcasecmpFrom_swap a b
      omega

theorem map_eq_of_injOn {α β : Type} (f : α → β) :
    ∀ (l1 l2 : List α), (∀ x ∈ l1, ∀ y ∈ l2, f x = f y → x = y) →
      l1.map f = l2.map f → l1 = l2
  | [], [], _, _ => rfl
  | [], _ :: _, _, h => by simp at h
  | _ :: _, [], _, h => by simp at h
  | x :: xs, y :: ys, hinj, h => by
    simp only [List.map_cons, List.cons.injEq] at h
    have hxy : x = y := hinj x (List.mem_cons_self _ _) y (List.mem_cons_self _ _) h.1
    have hrest : xs = ys := map_eq_of_injOn f xs ys
      (fun a ha b hb => hinj a (List.mem_cons_of_mem _ ha) b (List.mem_cons_of_mem _ hb)) h.2
    rw [hxy, hrest]

theorem foldedName_sorted (S : StdSort) (d : Directory) :
    ((d.sortContentsByName S).contents.map foldedName).Pairwise foldedLe := by
  rw [List.pairwise_map]
  exact List.Pairwise.imp (fun {a b} h => foldedLe_of_not_less a b h)
    (sortContentsByName_pairwise S d)

/-- For every routine meeting the promises of `std::sort`: sorting by name a second
time gives a rearrangement of the once-sorted children with the same sequence of
case-folded names, and changes nothing when no two children have names that are equal
ignoring letter case. -/
theorem sortContentsByName_twice_any (S : StdSort) (d : Directory) :
    ((d.sortContentsByName S).sortContentsByName S).contents.map foldedName
        = (d.sortContentsByName S).contents.map foldedName ∧
      ((d.sortContentsByName S).sortContentsByName S).contents.Perm
        (d.sortContentsByName S).contents ∧
      ((d.contents.map foldedName).Nodup →
        (d.sortContentsByName S).sortContentsByName S = d.sortContentsByName S) := by
  have hperm2 : ((d.sortContentsByName S).sortContentsByName S).contents.Perm
      (d.sortContentsByName S).contents :=
    S.perm nameLess (d.sortContentsByName S).contents nameLess_strictWeakOrder
  have hperm1 : (d.sortContentsByName S).contents.Perm d.contents :=
    S.perm nameLess d.contents nameLess_strictWeakOrder
  haveI : IsAntisymm (List Nat) foldedLe := ⟨foldedLe_antisymm⟩
  have hkeys : ((d.sortContentsByName S).sortContentsByName S).contents.map foldedName
      = (d.sortContentsByName S).contents.map foldedName :=
    List.eq_of_perm_of_sorted (hperm2.map foldedName)
      (foldedName_sorted S (d.sortContentsByName S)) (foldedName_sorted S d)
  refine ⟨hkeys, hperm2, fun hnodup => ?_⟩
  have hinj := List.inj_on_of_nodup_map hnodup
  have hcontents : ((d.sortContentsByName S).sortContentsByName S).contents
      = (d.sortContentsByName S).contents :=
    map_eq_of_injOn foldedName _ _
      (fun x hx y hy hxy =>
        hinj ((hperm1.mem_iff).mp ((hperm2.mem_iff).mp hx)) ((hperm1.mem_iff).mp hy) hxy)
      hkeys
  show (⟨(d.sortContentsByName S).currentDirectory,
      ((d.sortContentsByName S).sortContentsByName S).contents⟩ : Directory)
    = d.sortContentsByName S
  rw [hcontents]

/-- C6, as amended: with the `std::sort` of libstdc++, sorting by name a second time
gives a rearrangement of the once-sorted children with exactly the same sequence of
case-folded names; the second sort changes nothing at all when the directory holds
at most 16 children, and also when no two children have names that are equal
ignoring letter case. -/
theorem sortContentsByName_twice (d : Directory) :
    ((d.sortContentsByName ⟨libstdcxxSort, libstdcxxSort_perm, libstdcxxSort_sorted⟩).sortContentsByName ⟨libstdcxxSort, libstdcxxSort_perm, libstdcxxSort_sorted⟩).contents.map foldedName
        = (d.sortContentsByName ⟨libstdcxxSort, libstdcxxSort_perm, libstdcxxSort_sorted⟩).contents.map foldedName ∧
      ((d.sortContentsByName ⟨libstdcxxSort, libstdcxxSort_perm, libstdcxxSort_sorted⟩).sortContentsByName ⟨libstdcxxSort, libstdcxxSort_perm, libstdcxxSort_sorted⟩).contents.Perm
        (d.sortContentsByName ⟨libstdcxxSort, libstdcxxSort_perm, libstdcxxSort_sorted⟩).contents ∧
      ((d.contents.map foldedName).Nodup →
        (d.sortContentsByName ⟨libstdcxxSort, libstdcxxSort_perm, libstdcxxSort_sorted⟩).sortContentsByName ⟨libstdcxxSort, libstdcxxSort_perm, libstdcxxSort_sorted⟩ = d.sortContentsByName ⟨libstdcxxSort, libstdcxxSort_perm, libstdcxxSort_sorted⟩) ∧
      (d.contents.length ≤ 16 →
        (d.sortContentsByName ⟨libstdcxxSort, libstdcxxSort_perm, libstdcxxSort_sorted⟩).sortContentsByName ⟨libstdcxxSort, libstdcxxSort_perm, libstdcxxSort_sorted⟩ = d.sortContentsByName ⟨libstdcxxSort, libstdcxxSort_perm, libstdcxxSort_sorted⟩) := by
  refine ⟨(sortContentsByName_twice_any ⟨libstdcxxSort, libstdcxxSort_perm, libstdcxxSort_sorted⟩ d).1, (sortContentsByName_twice_any ⟨libstdcxxSort, libstdcxxSort_perm, libstdcxxSort_sorted⟩ d).2.1,
    (sortContentsByName_twice_any ⟨libstdcxxSort, libstdcxxSort_perm, libstdcxxSort_sorted⟩ d).2.2, fun hlen => ?_⟩
  have hperm : (libstdcxxSort nameLess d.contents).Perm d.contents :=
    libstdcxxSort_perm nameLess d.contents nameLess_strictWeakOrder
  have hshort : (libstdcxxSort nameLess d.contents).length ≤ 16 := by
    rw [hperm.length_eq]
    exact hlen
  show (⟨d.currentDirectory, libstdcxxSort nameLess (libstdcxxSort nameLess d.contents)⟩
      : Directory) = ⟨d.currentDirectory, libstdcxxSort nameLess d.contents⟩
  rw [libstdcxxSort_short nameLess _ hshort,
    insertionSortRange_of_sorted nameLess _
      (libstdcxxSort_sorted nameLess d.contents nameLess_strictWeakOrder)]

theorem sortContentsByName_twice_witness :
    (caseDirectory.contents.length ≤ 16 ∧
      (caseDirectory.sortContentsByName ⟨libstdcxxSort, libstdcxxSort_perm, libstdcxxSort_sorted⟩).sortContentsByName ⟨libstdcxxSort, libstdcxxSort_perm, libstdcxxSort_sorted⟩
        = caseDirectory.sortContentsByName ⟨libstdcxxSort, libstdcxxSort_perm, libstdcxxSort_sorted⟩) ∧
    ((twinDirectory.contents.map foldedName).Nodup ∧
      (twinDirectory.sortContentsByName ⟨libstdcxxSort, libstdcxxSort_perm, libstdcxxSort_sorted⟩).sortContentsByName ⟨libstdcxxSort, libstdcxxSort_perm, libstdcxxSort_sorted⟩
        = twinDirectory.sortContentsByName ⟨libstdcxxSort, libstdcxxSort_perm, libstdcxxSort_sorted⟩) :=
  ⟨⟨by decide, (sortContentsByName_twice caseDirectory).2.2.2 (by decide)⟩,
    ⟨by decide, (sortContentsByName_twice twinDirectory).2.2.1 (by decide)⟩⟩

/-- C6, the claim as written fails: the session started on `manyDisk` holds twenty
children whose names differ only in letter case.  One sort by name, with the
`std::sort` of libstdc++, moves `hElLo` to the front and reverses the others around
`hello`; a second sort brings the original order back, so sorting twice does not give
the order that sorting once gives. -/
theorem sortContentsByName_twice_counterexample :
    FakeFileSystem.new manyDisk = some ⟨manyDirectory⟩ ∧
    (manyDirectory.sortContentsByName ⟨libstdcxxSort, libstdcxxSort_perm, libstdcxxSort_sorted⟩).contents.map getName
      = ["hElLo", "HEllO", "hEllO", "HellO", "hellO", "HELLo", "hELLo", "HeLLo", "heLLo",
          "HElLo", "hello", "HelLo", "helLo", "HELlo", "hELlo", "HeLlo", "heLlo", "HEllo",
          "hEllo", "Hello"] ∧
    ((manyDirectory.sortContentsByName ⟨libstdcxxSort, libstdcxxSort_perm, libstdcxxSort_sorted⟩).sortContentsByName ⟨libstdcxxSort, libstdcxxSort_perm, libstdcxxSort_sorted⟩).contents.map getName
      = ["hello", "Hello", "hEllo", "HEllo", "heLlo", "HeLlo", "hELlo", "HELlo", "helLo",
          "HelLo", "hElLo", "HElLo", "heLLo", "HeLLo", "hELLo", "HELLo", "hellO", "HellO",
          "hEllO", "HEllO"] ∧
    (manyDirectory.sortContentsByName ⟨libstdcxxSort, libstdcxxSort_perm, libstdcxxSort_sorted⟩).sortContentsByName ⟨libstdcxxSort, libstdcxxSort_perm, libstdcxxSort_sorted⟩
      ≠ manyDirectory.sortContentsByName ⟨libstdcxxSort, libstdcxxSort_perm, libstdcxxSort_sorted⟩ := by
  refine ⟨rfl, by decide, by decide, fun h => ?_⟩
  have h2 := congrArg (fun d => d.contents.map getName) h
  revert h2
  decide

/-! ## Sorting by size -/

/-- When every child's `getSize()` hands back a value, `sortContentsBySize` has a
result: a rearrangement of the children in which the sizes, read in the new order,
never decrease. -/
theorem sortContentsBySize_nondecreasing (S : StdSort) (disk : Disk) (d : Directory)
    (h : ∀ c ∈ d.contents, (getSize disk c).isSome = true) :
    ∃ d1, d.sortContentsBySize S disk = some d1 ∧
      d1.currentDirectory = d.currentDirectory ∧ d1.contents.Perm d.contents ∧
      d1.contents.Pairwise (fun a b => ∃ x y, getSize disk a = some x ∧
        getSize disk b = some y ∧ x ≤ y) := by
  have hall : d.contents.all (fun c => (getSize disk c).isSome) = true :=
    List.all_eq_true.mpr h
  have hperm := S.perm (sizeLess disk) d.contents (sizeLess_strictWeakOrder disk)
  refine ⟨⟨d.currentDirectory, S.sort (sizeLess disk) d.contents⟩, ?_, rfl, hperm, ?_⟩
  · unfold Directory.sortContentsBySize
    simp [hall]
  · have hs := S.sorted (sizeLess disk) d.contents (sizeLess_strictWeakOrder disk)
    refine List.Pairwise.imp_of_mem ?_ hs
    intro a b ha hb hab
    have hsa := h a ((hperm.mem_iff).mp ha)
    have hsb := h b ((hperm.mem_iff).mp hb)
    obtain ⟨x, hx⟩ := Option.isSome_iff_exists.mp hsa
    obtain ⟨y, hy⟩ := Option.isSome_iff_exists.mp hsb
    refine ⟨x, y, hx, hy, ?_⟩
    simp only [sizeLess, hx, hy, Option.getD_some, decide_eq_false_iff_not, not_lt] at hab
    exact hab

theorem sortContentsBySize_nondecreasing_witness :
    (∀ c ∈ twinDirectory.contents, (getSize twinDisk c).isSome = true) ∧
    ∃ d1, twinDirectory.sortContentsBySize insertionStdSort twinDisk = some d1 ∧
      d1.currentDirectory = twinDirectory.currentDirectory ∧
      d1.contents.Perm twinDirectory.contents ∧
      d1.contents.Pairwise (fun a b => ∃ x y, getSize twinDisk a = some x ∧
        getSize twinDisk b = some y ∧ x ≤ y) :=
  ⟨by decide, sortContentsBySize_nondecreasing insertionStdSort twinDisk twinDirectory
    (by decide)⟩

/-- C7, the code at the failing input: in the session started on `shellDisk`,
`mkfile note` (size drawn: 5) appends a `File` object for `note`; its `getSize()`
hands back no value, not 5, because nothing exists on disk at `note` and the stored
size is never read.  With that child among three, `sortContentsBySize` and
`sortsize` have no result, whatever routine stands for `std::sort`. -/
theorem sortContentsBySize_synthetic_file (S : StdSort) :
    (shellSession.mkfile shellDisk "note" 5).1 = "File: note was created" ∧
    (shellSession.mkfile shellDisk "note" 5).2.1.currentDirectory.contents
      = shellSession.currentDirectory.contents ++ [.file ⟨"note", some 5⟩] ∧
    getSize shellDisk (.file ⟨"note", some 5⟩) = none ∧
    (shellSession.mkfile shellDisk "note" 5).2.1.currentDirectory.sortContentsBySize S shellDisk
      = none ∧
    (shellSession.mkfile shellDisk "note" 5).2.1.sortsize S shellDisk = none :=
  ⟨by decide, rfl, by decide, rfl, rfl⟩

/-! ## Order among children with equal keys -/

end FakeFS
